import Mathlib

/-!
Verification of the formula-aware range-copy engine in `src/app.py`
(`jlarrizala/copiar-informe-ventas`).

The development shallowly embeds the Python functions that the claims are
about:

* `normalize_text`, `find_anchor_row` (anchor locator, lines 103-120);
* the compiled regex `cell_or_range_pattern` (lines 122-127), embedded as an
  executable matcher `matchAt` / `findMatches` over `List Char` that follows
  the backtracking semantics of the concrete pattern
  `(?:(?:'[^']+'|[A-Za-z0-9_]+)!)?(\$?)([A-Z]{1,3})(\$(\d+)|(\d+))`
  `(?::(?:(?:'[^']+'|[A-Za-z0-9_]+)!)?(\$?)([A-Z]{1,3})(\$(\d+)|(\d+)))?`;
* `_shift_one` (lines 129-138), embedded as `shift_one` taking the tuple of
  captured groups exactly as Python hands it over (a list of `Option String`,
  `none` standing for a group that did not participate in the match);
* the openpyxl helpers `column_index_from_string` and `get_column_letter`,
  including their table bound `1 ≤ idx ≤ 18278` (column `ZZZ`);
* `shift_formula_refs` (lines 140-162) with the quote-parity check and the
  `INDIRECT`/`ADDRESS` guard, where `re.sub` is embedded by `subScanAux`;
* `copy_range_adjusting` (lines 164-211), values only (style and width
  copying carry no claim), over sheets as functions `Int → Int → CellVal`;
* the paste-origin computation of the `/copy-range` endpoint (lines 253-256).

Python exceptions are modelled with `Except String`; the error strings name
the Python exception class.  Strings are treated as their code-point lists
(`String.data`), matching Python string indexing.  Character classes of the
regex are the literal ASCII classes of the source pattern.
-/

/-! ### Character helpers -/

/-- Code point 39, the single-quote character used by the sheet-name regex. -/
def quoteChar : Char := Char.ofNat 39

/-- Code point 34, the double-quote character counted by the quote-parity
check of `shift_formula_refs`. -/
def dquoteChar : Char := Char.ofNat 34

/-- ASCII decimal digit, the class `[0-9]` (`\d` of the source pattern). -/
def isDigitChar (c : Char) : Bool := decide (48 ≤ c.toNat ∧ c.toNat ≤ 57)

/-- ASCII uppercase letter, the class `[A-Z]` of the source pattern. -/
def isUpperChar (c : Char) : Bool := decide (65 ≤ c.toNat ∧ c.toNat ≤ 90)

/-- ASCII lowercase letter. -/
def isLowerChar (c : Char) : Bool := decide (97 ≤ c.toNat ∧ c.toNat ≤ 122)

/-- The class `[A-Za-z0-9_]` of the sheet-name part of the source pattern. -/
def isWordChar (c : Char) : Bool :=
  isUpperChar c || isLowerChar c || isDigitChar c || c == '_'

/-- ASCII model of `str.upper` / `str.casefold` on one character (upcase). -/
def toUpperModel (c : Char) : Char :=
  if isLowerChar c then Char.ofNat (c.toNat - 32) else c

/-- ASCII model of `str.casefold` on one character (downcase). -/
def toLowerModel (c : Char) : Char :=
  if isUpperChar c then Char.ofNat (c.toNat + 32) else c

/-- Whitespace stripped by Python `str.strip`. -/
def isSpaceChar (c : Char) : Bool :=
  c == ' ' || c == Char.ofNat 9 || c == Char.ofNat 10 || c == Char.ofNat 13 ||
  c == Char.ofNat 11 || c == Char.ofNat 12

/-- Substring test: Python `pat in hay`. -/
def containsSub : List Char → List Char → Bool
  | l, pat =>
    if pat.isPrefixOf l then true
    else
      match l with
      | [] => false
      | _ :: t => containsSub t pat

/-- Python `s.startswith(pre)`. -/
def pyStartsWith (s pre : String) : Bool := pre.data.isPrefixOf s.data

/-- Python `s.upper()` on a whole string (ASCII model). -/
def pyUpperStr (s : String) : String := String.mk (s.data.map toUpperModel)

/-- Python truthiness-based `a or b` on optional strings (`None` and the
empty string are falsy). -/
def pyOr (a b : Option String) : Option String :=
  match a with
  | none => b
  | some s => if s = "" then b else some s

/-- Python f-string rendering of a value that may be `None`. -/
def pyStr (o : Option String) : String :=
  match o with
  | none => "None"
  | some s => s

/-- Whether an `Except` computation returned normally (no exception). -/
def exceptIsOk {ε α : Type} : Except ε α → Bool
  | .ok _ => true
  | .error _ => false

/-! ### Decimal rendering (Python `int` / f-string) and its inverse -/

/-- Decimal digit character for `d < 10`. -/
def digitChar (d : Nat) : Char := "0123456789".data.getD d '0'

/-- Numeric value of a decimal digit character. -/
def digitVal (c : Char) : Nat := c.toNat - 48

/-- Value of a decimal digit string (the core of Python `int(s)`). -/
def digitsVal (l : List Char) : Nat := l.foldl (fun a c => a * 10 + digitVal c) 0

/-- Fuelled decimal rendering of a natural number. -/
def natDigitsAux : Nat → Nat → List Char
  | 0, _ => []
  | fuel + 1, n =>
    if n < 10 then [digitChar n]
    else natDigitsAux fuel (n / 10) ++ [digitChar (n % 10)]

/-- Decimal rendering of a natural number, as Python renders an `int ≥ 0`. -/
def natDigits (n : Nat) : List Char := natDigitsAux (n + 1) n

/-- Python `str(i)` / f-string rendering of an `int`. -/
def intRender (i : Int) : String :=
  if i < 0 then "-" ++ String.mk (natDigits i.natAbs) else String.mk (natDigits i.toNat)

/-- Python `int(s)` on an optional string.  `None` raises `TypeError`; a
string that is not a plain digit run raises `ValueError`.  (Signs,
surrounding whitespace and underscores, which Python would also accept, never
occur on the strings this program feeds to `int`.) -/
def pyInt (o : Option String) : Except String Int :=
  match o with
  | none => .error "TypeError: int argument is None"
  | some s =>
    if s.data ≠ [] ∧ s.data.all isDigitChar = true then .ok (digitsVal s.data)
    else .error "ValueError: invalid literal for int"

theorem digitChar_val : ∀ d < 10, digitVal (digitChar d) = d ∧ isDigitChar (digitChar d) = true := by
  decide

theorem digitsVal_append (l : List Char) (c : Char) :
    digitsVal (l ++ [c]) = digitsVal l * 10 + digitVal c := by
  simp [digitsVal, List.foldl_append]

theorem natDigitsAux_spec : ∀ fuel n, n < 10 ^ fuel → digitsVal (natDigitsAux fuel n) = n := by
  intro fuel
  induction fuel with
  | zero => intro n h; interval_cases n; rfl
  | succ fuel ih =>
    intro n h
    by_cases h10 : n < 10
    · simp [natDigitsAux, h10, digitsVal, (digitChar_val n h10).1]
    · have hdiv : n / 10 < 10 ^ fuel := by
        rw [Nat.div_lt_iff_lt_mul (by norm_num)]
        calc n < 10 ^ (fuel + 1) := h
          _ = 10 ^ fuel * 10 := by ring
      have hm : n % 10 < 10 := Nat.mod_lt _ (by norm_num)
      simp only [natDigitsAux, if_neg h10, digitsVal_append, ih _ hdiv,
        (digitChar_val _ hm).1]
      omega

theorem natDigits_val (n : Nat) : digitsVal (natDigits n) = n := by
  apply natDigitsAux_spec
  calc n < 2 ^ n := Nat.lt_two_pow n
    _ ≤ 10 ^ n := Nat.pow_le_pow_left (by norm_num) n
    _ ≤ 10 ^ (n + 1) := Nat.pow_le_pow_right (by norm_num) (Nat.le_succ n)

theorem natDigitsAux_all_digit : ∀ fuel n, (natDigitsAux fuel n).all isDigitChar = true := by
  intro fuel
  induction fuel with
  | zero => intro n; rfl
  | succ fuel ih =>
    intro n
    by_cases h10 : n < 10
    · simp [natDigitsAux, h10, (digitChar_val n h10).2]
    · have hm : n % 10 < 10 := Nat.mod_lt _ (by norm_num)
      simp [natDigitsAux, h10, List.all_append, ih, (digitChar_val _ hm).2]

theorem natDigitsAux_ne_nil : ∀ fuel n, 0 < fuel → natDigitsAux fuel n ≠ [] := by
  intro fuel n h
  match fuel, h with
  | fuel + 1, _ =>
    by_cases h10 : n < 10 <;> simp [natDigitsAux, h10]

theorem natDigits_ne_nil (n : Nat) : natDigits n ≠ [] :=
  natDigitsAux_ne_nil (n + 1) n (Nat.succ_pos n)

theorem natDigits_all_digit (n : Nat) : (natDigits n).all isDigitChar = true :=
  natDigitsAux_all_digit (n + 1) n

theorem pyInt_natDigits (n : Nat) : pyInt (some (String.mk (natDigits n))) = .ok (n : Int) := by
  simp [pyInt, natDigits_ne_nil, natDigits_all_digit, natDigits_val]

/-! ### Bijective base-26 column letters (openpyxl `utils.cell`) -/

/-- Uppercase letter with index `k` (`A` = 0, …, `Z` = 25). -/
def letterChar (k : Nat) : Char := "ABCDEFGHIJKLMNOPQRSTUVWXYZ".data.getD k 'A'

/-- Value of a column-letter string in the bijective base-26 encoding
(`A` = 1, …, `Z` = 26, `AA` = 27, …). -/
def colValue (l : List Char) : Nat := l.foldl (fun a c => a * 26 + (c.toNat - 64)) 0

/-- Fuelled rendering of a column index as letters, the recursion of
openpyxl `get_column_letter`. -/
def colLetterAux : Nat → Nat → List Char
  | 0, _ => []
  | fuel + 1, i =>
    if i ≤ 26 then [letterChar (i - 1)]
    else colLetterAux fuel ((i - 1) / 26) ++ [letterChar ((i - 1) % 26)]

/-- Column letters of index `i` (adequate fuel for the whole openpyxl table,
which stops at `ZZZ` = 18278). -/
def colLetterStr (i : Nat) : String := String.mk (colLetterAux 4 i)

theorem letterChar_upper_lt : ∀ k < 26, isUpperChar (letterChar k) = true := by
  decide

theorem letterChar_upper (k : Nat) : isUpperChar (letterChar k) = true := by
  by_cases h : k < 26
  · exact letterChar_upper_lt k h
  · unfold letterChar
    have hlen : ("ABCDEFGHIJKLMNOPQRSTUVWXYZ".data).length ≤ k := by
      have h26 : ("ABCDEFGHIJKLMNOPQRSTUVWXYZ".data).length = 26 := rfl
      omega
    have hd := List.getD_eq_default ("ABCDEFGHIJKLMNOPQRSTUVWXYZ".data) 'A' hlen
    rw [hd]
    rfl

theorem letterChar_val : ∀ k < 26, (letterChar k).toNat - 64 = k + 1 := by
  decide

theorem colValue_append (l : List Char) (c : Char) :
    colValue (l ++ [c]) = colValue l * 26 + (c.toNat - 64) := by
  simp [colValue, List.foldl_append]

theorem colLetterAux_val :
    ∀ fuel, 1 ≤ fuel → ∀ i, 1 ≤ i → i ≤ 26 ^ fuel →
      colValue (colLetterAux fuel i) = i := by
  intro fuel
  induction fuel with
  | zero => intro h; omega
  | succ fuel ih =>
    intro _ i hi1 hi2
    by_cases h26 : i ≤ 26
    · have : i - 1 < 26 := by omega
      simp only [colLetterAux, if_pos h26, colValue, List.foldl_cons, List.foldl_nil]
      have := letterChar_val (i - 1) this
      omega
    · have hfuel : 1 ≤ fuel := by
        rcases Nat.eq_zero_or_pos fuel with h | h
        · subst h; simp at hi2; omega
        · exact h
      have hd1 : 1 ≤ (i - 1) / 26 := by
        have : 26 ≤ i - 1 := by omega
        exact Nat.le_div_iff_mul_le (by norm_num) |>.mpr (by omega)
      have hd2 : (i - 1) / 26 ≤ 26 ^ fuel := by
        have h1 : (i - 1) / 26 < 26 ^ fuel + 1 := by
          rw [Nat.div_lt_iff_lt_mul (by norm_num)]
          have : i ≤ 26 ^ (fuel + 1) := hi2
          have hpow : 26 ^ (fuel + 1) = 26 ^ fuel * 26 := by ring
          omega
        omega
      have hm : (i - 1) % 26 < 26 := Nat.mod_lt _ (by norm_num)
      simp only [colLetterAux, if_neg h26, colValue_append, ih hfuel _ hd1 hd2,
        letterChar_val _ hm]
      have := Nat.div_add_mod (i - 1) 26
      omega

theorem colLetterAux_upper : ∀ fuel i, (colLetterAux fuel i).all isUpperChar = true := by
  intro fuel
  induction fuel with
  | zero => intro i; rfl
  | succ fuel ih =>
    intro i
    by_cases h26 : i ≤ 26 <;>
      simp [colLetterAux, h26, List.all_append, ih, letterChar_upper]

theorem colLetterAux_ne_nil : ∀ fuel, 0 < fuel → ∀ i, colLetterAux fuel i ≠ [] := by
  intro fuel h i
  match fuel, h with
  | fuel + 1, _ => by_cases h26 : i ≤ 26 <;> simp [colLetterAux, h26]

theorem colLetter_val (i : Nat) (h1 : 1 ≤ i) (h2 : i ≤ 18278) :
    colValue (colLetterAux 4 i) = i :=
  colLetterAux_val 4 (by norm_num) i h1 (by norm_num; omega)

/-! ### openpyxl `column_index_from_string` and `get_column_letter` -/

/-- openpyxl `column_index_from_string`.  The real function upcases its
argument and looks it up in a table keyed by the canonical letters of the
indices 1..18278; a key is in that table exactly when it is a nonempty
all-uppercase string whose bijective base-26 value is at most 18278 (four or
more letters start at `AAAA` = 18279).  Called on `None` (as `_shift_one` can
do with misaligned groups) it raises `AttributeError` from `.upper()`. -/
def column_index_from_string (o : Option String) : Except String Nat :=
  match o with
  | none => .error "AttributeError: NoneType has no upper"
  | some s =>
    let u := s.data.map toUpperModel
    if u ≠ [] ∧ u.all isUpperChar = true ∧ colValue u ≤ 18278 then .ok (colValue u)
    else .error "ValueError: not a valid column name"

/-- openpyxl `get_column_letter`: raises `ValueError` outside 1..18278. -/
def get_column_letter (i : Int) : Except String String :=
  if 1 ≤ i ∧ i ≤ 18278 then .ok (colLetterStr i.toNat)
  else .error "ValueError: invalid column index"

theorem toUpperModel_fix (c : Char) (h : isUpperChar c = true) : toUpperModel c = c := by
  unfold toUpperModel
  rw [if_neg]
  unfold isUpperChar at h
  unfold isLowerChar
  simp only [decide_eq_true_eq] at h ⊢
  omega

theorem map_toUpperModel_fix (l : List Char) (h : l.all isUpperChar = true) :
    l.map toUpperModel = l := by
  induction l with
  | nil => rfl
  | cons c t ih =>
    simp only [List.all_cons, Bool.and_eq_true] at h
    simp [toUpperModel_fix c h.1, ih h.2]

theorem column_index_colLetter (i : Nat) (h1 : 1 ≤ i) (h2 : i ≤ 18278) :
    column_index_from_string (some (colLetterStr i)) = .ok i := by
  have hu := colLetterAux_upper 4 i
  have hne := colLetterAux_ne_nil 4 (by norm_num) i
  simp only [column_index_from_string, colLetterStr, map_toUpperModel_fix _ hu,
    colLetter_val i h1 h2]
  rw [if_pos ⟨hne, hu, h2⟩]

/-! ### `_shift_one` (app.py lines 129-138)

The Python function unpacks exactly five captured groups
`col_abs, col_letters, row_part, row_num1, row_num2 = groups`, any of which
may be `None` when the group did not participate in the match, and renders
`f"{col_abs}{get_column_letter(new_col_idx)}{row_abs}{new_row}"`. -/

/-- Embedding of `_shift_one`.  Every Python exception surfaces as
`.error`: unpacking a tuple whose length is not 5 (`ValueError`), calling
`.startswith` on `None` (`AttributeError`), `int(None)` / `int("")` /
`int("$…")` (`TypeError`/`ValueError`), an invalid or `None` column-letter
string, and a shifted column index outside 1..18278. -/
def shift_one (groups : List (Option String)) (drow dcol : Int) : Except String String :=
  match groups with
  | [col_abs, col_letters, row_part, row_num1, row_num2] =>
    match row_part with
    | none => .error "AttributeError: NoneType has no startswith"
    | some rp => do
      let row_abs : String := if pyStartsWith rp "$" then "$" else ""
      let row_number ← pyInt (pyOr row_num1 row_num2)
      let col_idx ← column_index_from_string col_letters
      let new_col_idx : Int := if col_abs = some "$" then (col_idx : Int) else (col_idx : Int) + dcol
      let new_row : Int := if row_abs = "$" then row_number else row_number + drow
      let new_col_idx2 : Int := max 1 new_col_idx
      let new_row2 : Int := max 1 new_row
      let letter ← get_column_letter new_col_idx2
      return pyStr col_abs ++ letter ++ row_abs ++ intRender new_row2
  | _ => .error "ValueError: not enough values to unpack"

/-- The five groups captured for one reference endpoint when the regex
matches it with column letters `L` and row digits `d`: `(\$?)` captures `$`
or the empty string, `(\$(\d+)|(\d+))` captures the row part and exactly one
of the two digit groups, the other being `None`. -/
def alignedGroups (cb rb : Bool) (L d : String) : List (Option String) :=
  [some (if cb then "$" else ""), some L,
   some ((if rb then "$" else "") ++ d),
   if rb then some d else none,
   if rb then none else some d]

/-- The column index `_shift_one` computes (lines 134 and 136). -/
def shiftedCol (cb : Bool) (i : Nat) (dc : Int) : Int :=
  max 1 (if cb then (i : Int) else (i : Int) + dc)

/-- The row number `_shift_one` computes (lines 135 and 137). -/
def shiftedRow (rb : Bool) (n : Nat) (dr : Int) : Int :=
  max 1 (if rb then (n : Int) else (n : Int) + dr)

theorem except_bind_ok {ε α β : Type} (a : α) (f : α → Except ε β) :
    (Except.ok a >>= f : Except ε β) = f a := rfl

theorem except_bind_error {ε α β : Type} (e : ε) (f : α → Except ε β) :
    ((Except.error e : Except ε α) >>= f) = .error e := rfl

theorem except_map_ok {ε α β : Type} (g : α → β) (a : α) :
    ((Except.ok a : Except ε α).map g) = .ok (g a) := rfl

theorem except_map_error {ε α β : Type} (g : α → β) (e : ε) :
    ((Except.error e : Except ε α).map g) = .error e := rfl

theorem except_pure {ε α : Type} (a : α) : (pure a : Except ε α) = .ok a := rfl

theorem str_data_append (a b : String) : (a ++ b).data = a.data ++ b.data := rfl

theorem str_nil_append (s : String) : "" ++ s = s := rfl

theorem startsWith_dollar_of_dollar (s : String) :
    pyStartsWith ("$" ++ s) "$" = true := by
  simp [pyStartsWith, str_data_append, List.isPrefixOf]

theorem startsWith_dollar_digits (l : List Char) (hd : l.all isDigitChar = true)
    (hne : l ≠ []) : pyStartsWith (String.mk l) "$" = false := by
  match l, hne with
  | c :: t, _ =>
    simp only [List.all_cons, Bool.and_eq_true] at hd
    have hc : c ≠ '$' := by
      intro h
      rw [h] at hd
      exact absurd hd.1 (by decide)
    simp [pyStartsWith, List.isPrefixOf, bne, hc.symm]

theorem intRender_ofNat (n : Nat) : intRender (n : Int) = String.mk (natDigits n) := by
  simp [intRender]

theorem mk_natDigits_ne_empty (n : Nat) : String.mk (natDigits n) ≠ "" := by
  intro h
  have : natDigits n = [] := by
    have := congrArg String.data h
    simpa using this
  exact natDigits_ne_nil n this

/-- Behaviour of `_shift_one` on a correctly aligned five-group tuple, as the
Formula Rewriter is specified to produce for a single reference endpoint:
the absolute markers pass through, an absolute axis keeps its coordinate, a
relative axis is shifted and clamped at 1, and the shifted column must stay
inside the column-letter table. -/
theorem shift_one_aligned (cb rb : Bool) (i n : Nat) (dr dc : Int)
    (hi1 : 1 ≤ i) (hi2 : i ≤ 18278)
    (hcol : shiftedCol cb i dc ≤ 18278) :
    shift_one (alignedGroups cb rb (colLetterStr i) (String.mk (natDigits n))) dr dc
      = .ok ((if cb then "$" else "") ++ colLetterStr (shiftedCol cb i dc).toNat
             ++ (if rb then "$" else "") ++ intRender (shiftedRow rb n dr)) := by
  have hone : (1 : Int) ≤ shiftedCol cb i dc := le_max_left 1 _
  have hget : get_column_letter (shiftedCol cb i dc) = .ok (colLetterStr (shiftedCol cb i dc).toNat) := by
    simp only [get_column_letter, if_pos (And.intro hone hcol)]
  cases cb <;> cases rb <;>
    simp only [alignedGroups, shift_one, Bool.false_eq_true, if_false, if_true,
      str_nil_append, startsWith_dollar_of_dollar,
      startsWith_dollar_digits (natDigits n) (natDigits_all_digit n) (natDigits_ne_nil n),
      pyOr, mk_natDigits_ne_empty, if_neg (mk_natDigits_ne_empty n),
      pyInt_natDigits, except_bind_ok,
      column_index_colLetter i hi1 hi2, pyStr, except_pure] <;>
    simp only [shiftedCol, shiftedRow] at hget ⊢ <;>
    simp_all [hget, shiftedCol, shiftedRow, except_bind_ok, except_pure, pyStr]

theorem str_append_nil (s : String) : s ++ "" = s := by
  cases s with
  | mk l =>
    show String.mk (l ++ []) = String.mk l
    rw [List.append_nil]

theorem intRender_nonneg (i : Int) (h : 0 ≤ i) :
    intRender i = String.mk (natDigits i.toNat) := by
  simp [intRender, Int.not_lt.mpr h]

/-- C5: for a fully absolute reference `$COL$ROW` (both markers absolute,
column letters canonical for index `i`, row digits canonical for `n`), the
Reference Translator `_shift_one` returns exactly the original reference
text under every delta. -/
theorem c5_absolute_identity (i n : Nat) (drow dcol : Int)
    (hi1 : 1 ≤ i) (hi2 : i ≤ 18278) (hn : 1 ≤ n) :
    shift_one (alignedGroups true true (colLetterStr i) (String.mk (natDigits n))) drow dcol
      = .ok ("$" ++ colLetterStr i ++ "$" ++ String.mk (natDigits n)) := by
  have hc : shiftedCol true i dcol = (i : Int) := by
    simp only [shiftedCol, if_true]
    omega
  have hr : shiftedRow true n drow = (n : Int) := by
    simp only [shiftedRow, if_true]
    omega
  have h := shift_one_aligned true true i n drow dcol hi1 hi2 (by rw [hc]; exact_mod_cast hi2)
  rw [h, hc, hr]
  simp [intRender_ofNat]

theorem c5_witness :
    (1 ≤ 3 ∧ 3 ≤ 18278 ∧ 1 ≤ 7) ∧
    shift_one (alignedGroups true true (colLetterStr 3) (String.mk (natDigits 7))) (-5) 9
      = .ok ("$" ++ colLetterStr 3 ++ "$" ++ String.mk (natDigits 7)) :=
  ⟨⟨by decide, by decide, by decide⟩,
   c5_absolute_identity 3 7 (-5) 9 (by decide) (by decide) (by decide)⟩

/-- C6 counterexample: the relative reference `ZZZ1` (column index 18278)
shifted by `(drow, dcol) = (0, 1)` satisfies the claim premise — neither the
shifted column (18279) nor the shifted row (1) falls below 1 — yet
translation does not produce any text to translate back: `get_column_letter`
raises `ValueError` because 18279 is outside its 1..18278 table, so the
round-trip fails. -/
theorem c6_counterexample :
    (1 : Int) ≤ 18278 + 1 ∧ (1 : Int) ≤ 1 + 0 ∧
    exceptIsOk (shift_one (alignedGroups false false (colLetterStr 18278)
      (String.mk (natDigits 1))) 0 1) = false := by
  refine ⟨by decide, by decide, ?_⟩
  decide

/-- C6 (amended): for every relative reference (no absolute markers, column
letters canonical for index `i`, row digits canonical for `n`) and every
delta `(dr, dc)` such that neither shifted coordinate falls below 1 — so no
clamping occurs — and additionally the shifted column index stays within the
column-letter table bound 18278, translating by `(dr, dc)` and then
translating the result by `(-dr, -dc)` yields the original reference text. -/
theorem c6_relative_roundtrip (i n : Nat) (dr dc : Int)
    (hi1 : 1 ≤ i) (hi2 : i ≤ 18278) (hn : 1 ≤ n)
    (hc1 : 1 ≤ (i : Int) + dc) (hc2 : (i : Int) + dc ≤ 18278)
    (hr1 : 1 ≤ (n : Int) + dr) :
    shift_one (alignedGroups false false (colLetterStr i) (String.mk (natDigits n))) dr dc
      = .ok (colLetterStr ((i : Int) + dc).toNat ++ String.mk (natDigits ((n : Int) + dr).toNat))
    ∧ shift_one (alignedGroups false false (colLetterStr ((i : Int) + dc).toNat)
        (String.mk (natDigits ((n : Int) + dr).toNat))) (-dr) (-dc)
      = .ok (colLetterStr i ++ String.mk (natDigits n)) := by
  have hcolA : shiftedCol false i dc = (i : Int) + dc := by
    simp only [shiftedCol, Bool.false_eq_true, if_false]
    omega
  have hrowA : shiftedRow false n dr = (n : Int) + dr := by
    simp only [shiftedRow, Bool.false_eq_true, if_false]
    omega
  constructor
  · have h := shift_one_aligned false false i n dr dc hi1 hi2 (by rw [hcolA]; exact hc2)
    rw [h, hcolA, hrowA]
    rw [intRender_nonneg _ (by omega)]
    simp [str_nil_append, str_append_nil]
  · have hiN1 : 1 ≤ ((i : Int) + dc).toNat := by omega
    have hiN2 : ((i : Int) + dc).toNat ≤ 18278 := by omega
    have hcast : ((((i : Int) + dc).toNat : Int)) = (i : Int) + dc := by omega
    have hcolB : shiftedCol false ((i : Int) + dc).toNat (-dc) = (i : Int) := by
      simp only [shiftedCol, Bool.false_eq_true, if_false, hcast]
      omega
    have hrowB : shiftedRow false ((n : Int) + dr).toNat (-dr) = (n : Int) := by
      have hcast2 : ((((n : Int) + dr).toNat : Int)) = (n : Int) + dr := by omega
      simp only [shiftedRow, Bool.false_eq_true, if_false, hcast2]
      omega
    have h := shift_one_aligned false false ((i : Int) + dc).toNat ((n : Int) + dr).toNat
      (-dr) (-dc) hiN1 hiN2 (by rw [hcolB]; exact_mod_cast hi2)
    rw [h, hcolB, hrowB]
    rw [intRender_nonneg _ (by omega)]
    simp [str_nil_append, str_append_nil]

theorem c6_relative_roundtrip_witness :
    (1 ≤ 2 ∧ 2 ≤ 18278 ∧ 1 ≤ 10 ∧ (1 : Int) ≤ 2 + 3 ∧ (2 : Int) + 3 ≤ 18278 ∧ (1 : Int) ≤ 10 + (-4)) ∧
    (shift_one (alignedGroups false false (colLetterStr 2) (String.mk (natDigits 10))) (-4) 3
      = .ok (colLetterStr ((2 : Int) + 3).toNat ++ String.mk (natDigits ((10 : Int) + (-4)).toNat))
    ∧ shift_one (alignedGroups false false (colLetterStr ((2 : Int) + 3).toNat)
        (String.mk (natDigits ((10 : Int) + (-4)).toNat))) 4 (-3)
      = .ok (colLetterStr 2 ++ String.mk (natDigits 10))) :=
  ⟨⟨by decide, by decide, by decide, by decide, by decide, by decide⟩,
   c6_relative_roundtrip 2 10 (-4) 3 (by decide) (by decide) (by decide)
     (by decide) (by decide) (by decide)⟩

/-- C9: for every reference endpoint (any combination of absolute markers)
and every delta, the coordinates computed by the Reference Translator are
clamped to at least 1; an absolute axis keeps its coordinate (the clamp does
not move it, since sheet coordinates start at 1); the absolute markers are
preserved verbatim in the rendered output of `_shift_one` whenever the
shifted column stays inside the column-letter table. -/
theorem c9_clamp_invariant (cb rb : Bool) (i n : Nat) (dr dc : Int)
    (hi1 : 1 ≤ i) (hi2 : i ≤ 18278) (hn : 1 ≤ n)
    (hcol : shiftedCol cb i dc ≤ 18278) :
    1 ≤ shiftedCol cb i dc ∧ 1 ≤ shiftedRow rb n dr
    ∧ (cb = true → shiftedCol cb i dc = (i : Int))
    ∧ (rb = true → shiftedRow rb n dr = (n : Int))
    ∧ shift_one (alignedGroups cb rb (colLetterStr i) (String.mk (natDigits n))) dr dc
        = .ok ((if cb then "$" else "") ++ colLetterStr (shiftedCol cb i dc).toNat
               ++ (if rb then "$" else "") ++ intRender (shiftedRow rb n dr)) := by
  refine ⟨le_max_left 1 _, le_max_left 1 _, ?_, ?_, shift_one_aligned cb rb i n dr dc hi1 hi2 hcol⟩
  · intro h
    subst h
    simp only [shiftedCol, if_true]
    omega
  · intro h
    subst h
    simp only [shiftedRow, if_true]
    omega

theorem c9_clamp_invariant_witness :
    (1 ≤ 1 ∧ 1 ≤ 18278 ∧ 1 ≤ 2 ∧ shiftedCol false 1 5 ≤ 18278) ∧
    (1 ≤ shiftedCol false 1 5 ∧ 1 ≤ shiftedRow true 2 (-9)
    ∧ (false = true → shiftedCol false 1 5 = (1 : Int))
    ∧ (true = true → shiftedRow true 2 (-9) = (2 : Int))
    ∧ shift_one (alignedGroups false true (colLetterStr 1) (String.mk (natDigits 2))) (-9) 5
        = .ok ((if false then "$" else "") ++ colLetterStr (shiftedCol false 1 5).toNat
               ++ (if true then "$" else "") ++ intRender (shiftedRow true 2 (-9)))) :=
  ⟨⟨by decide, by decide, by decide, by decide⟩,
   c9_clamp_invariant false true 1 2 (-9) 5 (by decide) (by decide) (by decide) (by decide)⟩

/-! ### The compiled pattern `cell_or_range_pattern` (app.py lines 122-127)

The pattern, after `.replace(" ", "")`, is

  `(?:(?:'[^']+'|[A-Za-z0-9_]+)!)?(\$?)([A-Z]{1,3})(\$(\d+)|(\d+))`
  `(?::(?:(?:'[^']+'|[A-Za-z0-9_]+)!)?(\$?)([A-Z]{1,3})(\$(\d+)|(\d+)))?`

with ten capture groups (five per endpoint).  The embedding below is a
deterministic matcher equivalent to Python backtracking on this concrete
pattern:

* `'[^']+'` cannot cross a quote, so it deterministically spans to the next
  single quote; the word alternative cannot start with a quote, so the
  alternation commits on the first character;
* `[A-Za-z0-9_]+!` succeeds exactly when the character after the maximal
  word run is `!` (shorter runs end on a word character, never on `!`);
* `\$?` is deterministic: if the optional `$` is consumed and the sequel
  fails, retrying without it puts `[A-Z]` on the `$` and fails too;
* `[A-Z]{1,3}` fails whenever the maximal uppercase run is empty or longer
  than 3 (backing off leaves an uppercase letter where `$`/digit must be),
  and otherwise takes the whole run;
* the optional sheet qualifier and the optional `:`-range part are tried
  greedily and dropped when their sequel fails, which always succeeds, so
  the engine never backtracks into an already matched first endpoint. -/

/-- Captured groups of one matched reference endpoint.  `colAbs` records
whether `(\$?)` captured `$` (it always participates, capturing `$` or the
empty string); `rowAbs` records which alternative of `(\$(\d+)|(\d+))`
matched. -/
structure RefG where
  colAbs : Bool
  colLetters : List Char
  rowAbs : Bool
  rowDigits : List Char

/-- One match of the full pattern: its matched text (`m.group(0)`), the
first endpoint, and the optional second endpoint of a range. -/
structure MatchCore where
  text : List Char
  ref1 : RefG
  ref2 : Option RefG

/-- Sheet qualifier `(?:'[^']+'|[A-Za-z0-9_]+)!` at the head of the input;
returns the consumed characters and the rest. -/
def parseSheetQual (cs : List Char) : Option (List Char × List Char) :=
  match cs with
  | [] => none
  | c :: t =>
    if c = quoteChar then
      let inner := t.takeWhile (fun x => x != quoteChar)
      if inner.isEmpty then none
      else
        match t.dropWhile (fun x => x != quoteChar) with
        | x :: y :: r =>
          if x = quoteChar ∧ y = '!' then some (c :: inner ++ [x, y], r) else none
        | _ => none
    else if isWordChar c then
      match cs.dropWhile isWordChar with
      | x :: r => if x = '!' then some (cs.takeWhile isWordChar ++ ['!'], r) else none
      | [] => none
    else none

/-- The part `([A-Z]{1,3})(\$(\d+)|(\d+))` of one endpoint, after the
optional column `$` was handled; `dAbs` records whether it was consumed.
Returns the groups, the consumed characters, and the rest. -/
def parseColRow (dAbs : Bool) (cs1 : List Char) : Option (RefG × List Char × List Char) :=
  let L := cs1.takeWhile isUpperChar
  let cs2 := cs1.dropWhile isUpperChar
  if L.length = 0 ∨ 3 < L.length then none
  else
    match cs2 with
    | '$' :: cs3 =>
      let d := cs3.takeWhile isDigitChar
      if d.isEmpty then none
      else some (⟨dAbs, L, true, d⟩, L ++ '$' :: d, cs3.dropWhile isDigitChar)
    | _ =>
      let d := cs2.takeWhile isDigitChar
      if d.isEmpty then none
      else some (⟨dAbs, L, false, d⟩, L ++ d, cs2.dropWhile isDigitChar)

/-- Cell reference `(\$?)([A-Z]{1,3})(\$(\d+)|(\d+))` at the head of the
input.  When a `$` head is consumed and the sequel fails, retrying the
optional `(\$?)` empty puts `[A-Z]{1,3}` on the `$` and fails as well, so no
second attempt is needed. -/
def parseCellRef (cs : List Char) : Option (RefG × List Char × List Char) :=
  if cs.headD ' ' = '$' then
    match parseColRow true cs.tail with
    | some (g, t, r) => some (g, '$' :: t, r)
    | none => none
  else parseColRow false cs

/-- One endpoint with its optional sheet qualifier: try the qualifier
greedily, and if the cell reference after it fails, retry without it. -/
def parseRefQual (cs : List Char) : Option (List Char × RefG × List Char) :=
  match parseSheetQual cs with
  | some (p, r1) =>
    (match parseCellRef r1 with
     | some (g, t, r2) => some (p ++ t, g, r2)
     | none =>
       match parseCellRef cs with
       | some (g, t, r2) => some (t, g, r2)
       | none => none)
  | none =>
    match parseCellRef cs with
    | some (g, t, r2) => some (t, g, r2)
    | none => none

/-- Attempt to match the whole pattern at the head of the input, as the
regex engine does at each scan position. -/
def matchAt (cs : List Char) : Option (MatchCore × List Char) :=
  match parseRefQual cs with
  | none => none
  | some (t1, g1, r1) =>
    match r1 with
    | ':' :: r1x =>
      (match parseRefQual r1x with
       | some (t2, g2, r2) => some (⟨t1 ++ ':' :: t2, g1, some g2⟩, r2)
       | none => some (⟨t1, g1, none⟩, r1))
    | _ => some (⟨t1, g1, none⟩, r1)

theorem parseSheetQual_concat (cs p r : List Char)
    (h : parseSheetQual cs = some (p, r)) : p ++ r = cs := by
  cases cs with
  | nil => exact absurd h (by simp [parseSheetQual])
  | cons c t =>
    simp only [parseSheetQual] at h
    split at h
    next hq =>
      split at h
      · exact absurd h (by simp)
      next hne =>
        split at h
        next x y r0 hdrop =>
          split at h
          next hxy =>
            injection h with h1
            injection h1 with hp hr
            subst hp
            subst hr
            have ht := List.takeWhile_append_dropWhile (fun a => a != quoteChar) t
            rw [hdrop] at ht
            simp only [List.cons_append, List.append_assoc, List.cons_append,
              List.nil_append]
            rw [ht]
          next => exact absurd h (by simp)
        next => exact absurd h (by simp)
    next hq =>
      split at h
      next hw =>
        split at h
        next x r0 hdrop =>
          split at h
          next hx =>
            injection h with h1
            injection h1 with hp hr
            subst hp
            subst hr
            have ht := List.takeWhile_append_dropWhile isWordChar (c :: t)
            rw [hdrop, hx] at ht
            simp only [List.append_assoc, List.singleton_append]
            rw [ht]
          next => exact absurd h (by simp)
        next => exact absurd h (by simp)
      next => exact absurd h (by simp)

theorem parseColRow_concat (dAbs : Bool) (cs1 : List Char) (g : RefG) (t r : List Char)
    (h : parseColRow dAbs cs1 = some (g, t, r)) : t ++ r = cs1 := by
  simp only [parseColRow] at h
  split at h
  · exact absurd h (by simp)
  next hlen =>
    have h1 := List.takeWhile_append_dropWhile isUpperChar cs1
    split at h
    next cs3 hcs2 =>
      split at h
      · exact absurd h (by simp)
      next hde =>
        injection h with h2
        injection h2 with hg h3
        injection h3 with ht hr
        subst ht
        subst hr
        have h2 := List.takeWhile_append_dropWhile isDigitChar cs3
        rw [hcs2] at h1
        simp only [List.append_assoc, List.cons_append]
        rw [h2]
        exact h1
    next hnot =>
      split at h
      · exact absurd h (by simp)
      next hde =>
        injection h with h2
        injection h2 with hg h3
        injection h3 with ht hr
        subst ht
        subst hr
        have h2 := List.takeWhile_append_dropWhile isDigitChar (cs1.dropWhile isUpperChar)
        simp only [List.append_assoc]
        rw [h2]
        exact h1

theorem parseCellRef_concat (cs : List Char) (g : RefG) (t r : List Char)
    (h : parseCellRef cs = some (g, t, r)) : t ++ r = cs := by
  by_cases hd : cs.headD ' ' = '$'
  · rw [parseCellRef, if_pos hd] at h
    split at h
    next g0 t0 r0 hcr =>
      injection h with h2
      injection h2 with hg h3
      injection h3 with ht hr
      subst ht
      subst hr
      have := parseColRow_concat true cs.tail g0 t0 r0 hcr
      cases cs with
      | nil => exact absurd hd (by decide)
      | cons a t1 =>
        simp only [List.headD_cons] at hd
        subst hd
        simp only [List.tail_cons] at this
        simp only [List.cons_append, this]
    next => exact absurd h (by simp)
  · rw [parseCellRef, if_neg hd] at h
    exact parseColRow_concat false cs g t r h

theorem parseRefQual_concat (cs t : List Char) (g : RefG) (r : List Char)
    (h : parseRefQual cs = some (t, g, r)) : t ++ r = cs := by
  unfold parseRefQual at h
  split at h
  next p r1 hsq =>
    split at h
    next g2 t2 r2 hcr =>
      injection h with h2
      injection h2 with ht h3
      injection h3 with hg hr
      subst ht
      subst hr
      rw [List.append_assoc, parseCellRef_concat r1 g2 t2 r2 hcr]
      exact parseSheetQual_concat cs p r1 hsq
    next hnone =>
      split at h
      next g2 t2 r2 hcr =>
        injection h with h2
        injection h2 with ht h3
        injection h3 with hg hr
        subst ht
        subst hr
        exact parseCellRef_concat cs g2 t2 r2 hcr
      next => exact absurd h (by simp)
  next hnone =>
    split at h
    next g2 t2 r2 hcr =>
      injection h with h2
      injection h2 with ht h3
      injection h3 with hg hr
      subst ht
      subst hr
      exact parseCellRef_concat cs g2 t2 r2 hcr
    next => exact absurd h (by simp)

theorem matchAt_concat (cs : List Char) (m : MatchCore) (rest : List Char)
    (h : matchAt cs = some (m, rest)) : m.text ++ rest = cs := by
  unfold matchAt at h
  split at h
  · exact absurd h (by simp)
  next t1 g1 r1 hrq =>
    split at h
    next r1x =>
      split at h
      next t2 g2 r2 hrq2 =>
        injection h with h2
        injection h2 with hm hr
        subst hm
        rw [← hr]
        show (t1 ++ ':' :: t2) ++ r2 = cs
        rw [List.append_assoc, List.cons_append]
        rw [show t2 ++ r2 = r1x from parseRefQual_concat r1x t2 g2 r2 hrq2]
        exact parseRefQual_concat cs t1 g1 (':' :: r1x) hrq
      next hnone =>
        injection h with h2
        injection h2 with hm hr
        subst hm
        rw [← hr]
        show t1 ++ ':' :: r1x = cs
        exact parseRefQual_concat cs t1 g1 (':' :: r1x) hrq
    next hnot =>
      injection h with h2
      injection h2 with hm hr
      subst hm
      rw [← hr]
      show t1 ++ r1 = cs
      exact parseRefQual_concat cs t1 g1 r1 hrq

/-! ### `m.groups()` and the replacement callback `repl` (lines 148-160) -/

/-- The five groups of one endpoint as `m.groups()` reports them. -/
def RefG.groupsList (g : RefG) : List (Option String) :=
  [some (if g.colAbs then "$" else ""),
   some (String.mk g.colLetters),
   some ((if g.rowAbs then "$" else "") ++ String.mk g.rowDigits),
   if g.rowAbs then some (String.mk g.rowDigits) else none,
   if g.rowAbs then none else some (String.mk g.rowDigits)]

/-- `m.groups()`: the pattern defines ten groups, so the tuple always has
ten entries; the five of an unmatched second endpoint are all `None`. -/
def MatchCore.pyGroups (m : MatchCore) : List (Option String) :=
  m.ref1.groupsList ++
    (match m.ref2 with
     | some g => g.groupsList
     | none => [none, none, none, none, none])

/-- `before.count(chr(34))` of the quote-parity check (line 152). -/
def countQ (l : List Char) : Nat := l.countP (fun c => c == dquoteChar)

/-- The callback `repl` (lines 148-160).  `pos` is `m.span()[0]` inside the
original formula.  Since `len(g) == 10` always holds, the two-endpoint
branch is always taken, with the slices `g[1:6]` and `g[6:]`. -/
def replFn (orig : List Char) (drow dcol : Int) (pos : Nat) (m : MatchCore) :
    Except String (List Char) :=
  if countQ (orig.take pos) % 2 = 1 then .ok m.text
  else
    let g := m.pyGroups
    if g.length = 10 then do
      let left ← shift_one ((g.drop 1).take 5) drow dcol
      let right ← shift_one (g.drop 6) drow dcol
      return (left ++ ":" ++ right).data
    else (shift_one g drow dcol).map String.data

/-! ### `re.sub` scanning (line 162)

`cell_or_range_pattern.sub(repl, formula)` scans left to right: at each
position it tries the pattern; on a match it emits `repl(m)` and resumes
after the match, otherwise it emits the character and moves one position.
Fuel bounds the number of scan steps; every match consumes at least one
character, so `formula.length` steps always suffice. -/

/-- The substitution scan.  An exception inside the callback propagates. -/
def subScanAux (orig : List Char) (drow dcol : Int) :
    Nat → List Char → Nat → Except String (List Char)
  | 0, cs, _ => .ok cs
  | fuel + 1, cs, pos =>
    match matchAt cs with
    | some (m, rest) => do
      let r ← replFn orig drow dcol pos m
      let tail ← subScanAux orig drow dcol fuel rest (pos + m.text.length)
      return r ++ tail
    | none =>
      match cs with
      | [] => .ok []
      | c :: t => do
        let tail ← subScanAux orig drow dcol fuel t (pos + 1)
        return c :: tail

/-- The same scan, recording the matches and their start positions (what
`cell_or_range_pattern.finditer` would yield). -/
def reScanAux : Nat → List Char → Nat → List (Nat × MatchCore)
  | 0, _, _ => []
  | fuel + 1, cs, pos =>
    match matchAt cs with
    | some (m, rest) => (pos, m) :: reScanAux fuel rest (pos + m.text.length)
    | none =>
      match cs with
      | [] => []
      | _ :: t => reScanAux fuel t (pos + 1)

/-- All matches of `cell_or_range_pattern` in `l`, with start positions. -/
def findMatches (l : List Char) : List (Nat × MatchCore) := reScanAux l.length l 0

/-- Embedding of `shift_formula_refs` (lines 140-162).  A string input makes
the `isinstance(formula, str)` test true, so only `startswith("=")` remains
of the first guard. -/
def shift_formula_refs (formula : String) (drow dcol : Int) : Except String String :=
  if pyStartsWith formula "=" = false then .ok formula
  else if containsSub (formula.data.map toUpperModel) "INDIRECT".data = true
       ∨ containsSub (formula.data.map toUpperModel) "ADDRESS".data = true then .ok formula
  else (subScanAux formula.data drow dcol formula.data.length formula.data 0).map String.mk

/-- On the misaligned slice `g[1:6]` the unpacked `row_part` is never a
usable row part: for a relative first endpoint it is `None`
(`AttributeError` on `.startswith`), and for an absolute first endpoint the
unpacked `row_num1 or row_num2` is `None`, the empty string, or `"$"`, all
of which make `int()` raise.  So `_shift_one` raises on every match the
pattern can produce. -/
theorem shift_one_mis (m : MatchCore) (drow dcol : Int) :
    ∃ e, shift_one (((m.pyGroups).drop 1).take 5) drow dcol = .error e := by
  obtain ⟨text, ⟨cb, L, rb, d⟩, ref2⟩ := m
  have hslice : ((MatchCore.pyGroups ⟨text, ⟨cb, L, rb, d⟩, ref2⟩).drop 1).take 5
      = [some (String.mk L),
         some ((if rb then "$" else "") ++ String.mk d),
         (if rb then some (String.mk d) else none),
         (if rb then none else some (String.mk d)),
         (match ref2 with
          | some g2 => some (if g2.colAbs then "$" else "")
          | none => none)] := by
    cases ref2 <;> simp [MatchCore.pyGroups, RefG.groupsList]
  rw [hslice]
  cases rb
  · exact ⟨_, rfl⟩
  · cases ref2 with
    | none => exact ⟨_, rfl⟩
    | some g2 =>
      obtain ⟨cb2, L2, rb2, d2⟩ := g2
      cases cb2
      · exact ⟨_, rfl⟩
      · exact ⟨_, rfl⟩

theorem str_mk_data (s : String) : String.mk s.data = s := rfl

theorem pyGroups_length (m : MatchCore) : m.pyGroups.length = 10 := by
  obtain ⟨text, ref1, ref2⟩ := m
  cases ref2 <;> simp [MatchCore.pyGroups, RefG.groupsList]

/-- On a match whose quote parity is even, the callback always raises: the
`len(g) == 10` test succeeds (the pattern has ten groups), so `_shift_one`
receives the misaligned slice `g[1:6]` and raises. -/
theorem replFn_even_error (orig : List Char) (drow dcol : Int) (pos : Nat) (m : MatchCore)
    (hc : ¬ countQ (orig.take pos) % 2 = 1) :
    ∃ e, replFn orig drow dcol pos m = .error e := by
  obtain ⟨e, he⟩ := shift_one_mis m drow dcol
  refine ⟨e, ?_⟩
  rw [replFn, if_neg hc]
  show (if (m.pyGroups).length = 10 then _ else _) = Except.error e
  rw [if_pos (pyGroups_length m), he]
  rfl

/-- When every match of the scan has odd quote parity, the substitution
returns the input unchanged: each callback returns the matched text and the
scan re-assembles the original character list. -/
theorem subScan_all_odd (orig : List Char) (drow dcol : Int) :
    ∀ fuel cs pos,
      (∀ p ∈ reScanAux fuel cs pos, countQ (orig.take p.1) % 2 = 1) →
      subScanAux orig drow dcol fuel cs pos = .ok cs := by
  intro fuel
  induction fuel with
  | zero => intro cs pos h; rfl
  | succ fuel ih =>
    intro cs pos h
    cases hm : matchAt cs with
    | some pr =>
      obtain ⟨m, rest⟩ := pr
      have hp : countQ (orig.take pos) % 2 = 1 := by
        apply h (pos, m)
        simp [reScanAux, hm]
      have hrepl : replFn orig drow dcol pos m = .ok m.text := by
        simp [replFn, hp]
      have htail : subScanAux orig drow dcol fuel rest (pos + m.text.length) = .ok rest := by
        apply ih
        intro p hpmem
        apply h p
        simp [reScanAux, hm]
        right
        exact hpmem
      simp only [subScanAux, hm, hrepl, htail, except_bind_ok, except_pure]
      rw [matchAt_concat cs m rest hm]
    | none =>
      cases cs with
      | nil => simp [subScanAux, hm]
      | cons c t =>
        have htail : subScanAux orig drow dcol fuel t (pos + 1) = .ok t := by
          apply ih
          intro p hpmem
          apply h p
          simp [reScanAux, hm]
          exact hpmem
        simp [subScanAux, hm, htail, except_bind_ok, except_pure]

/-- When some match of the scan has even quote parity, the substitution
raises: the first such callback invocation raises and the exception
propagates out of `re.sub`. -/
theorem subScan_exists_even (orig : List Char) (drow dcol : Int) :
    ∀ fuel cs pos,
      (∃ p ∈ reScanAux fuel cs pos, countQ (orig.take p.1) % 2 = 0) →
      ∃ e, subScanAux orig drow dcol fuel cs pos = .error e := by
  intro fuel
  induction fuel with
  | zero =>
    intro cs pos h
    obtain ⟨p, hp, _⟩ := h
    exact absurd hp (by simp [reScanAux])
  | succ fuel ih =>
    intro cs pos h
    cases hm : matchAt cs with
    | some pr =>
      obtain ⟨m, rest⟩ := pr
      obtain ⟨p, hpmem, hpeven⟩ := h
      rw [show reScanAux (fuel + 1) cs pos = (pos, m) :: reScanAux fuel rest (pos + m.text.length) by
        simp [reScanAux, hm]] at hpmem
      rcases List.mem_cons.mp hpmem with hhead | htail
      · subst hhead
        have hpeven2 : countQ (orig.take pos) % 2 = 0 := by simpa using hpeven
        have hc : ¬ countQ (orig.take pos) % 2 = 1 := by omega
        obtain ⟨e, he⟩ := replFn_even_error orig drow dcol pos m hc
        refine ⟨e, ?_⟩
        simp [subScanAux, hm, he, except_bind_error]
      · cases hrepl : replFn orig drow dcol pos m with
        | error e =>
          refine ⟨e, ?_⟩
          simp [subScanAux, hm, hrepl, except_bind_error]
        | ok r =>
          obtain ⟨e, he⟩ := ih rest (pos + m.text.length) ⟨p, htail, hpeven⟩
          refine ⟨e, ?_⟩
          simp [subScanAux, hm, hrepl, he, except_bind_ok, except_bind_error]
    | none =>
      cases cs with
      | nil =>
        obtain ⟨p, hp, _⟩ := h
        exact absurd hp (by simp [reScanAux, hm])
      | cons c t =>
        have hmem : ∃ p ∈ reScanAux fuel t (pos + 1), countQ (orig.take p.1) % 2 = 0 := by
          obtain ⟨p, hp, hpe⟩ := h
          refine ⟨p, ?_, hpe⟩
          simpa [reScanAux, hm] using hp
        obtain ⟨e, he⟩ := ih t (pos + 1) hmem
        refine ⟨e, ?_⟩
        simp [subScanAux, hm, he, except_bind_error]

/-- C1: for every input string that starts with `=`, whose upper-cased text
contains neither `INDIRECT` nor `ADDRESS`, and that contains at least one
match of the reference pattern not preceded by an odd number of double
quotes, `shift_formula_refs` raises an exception instead of returning a
string: the pattern has ten capture groups whether or not the optional
second endpoint matched, so the callback always takes the two-endpoint
branch and hands `_shift_one` the misaligned slices `g[1:6]` and `g[6:]`. -/
theorem c1_misaligned_groups_raise (formula : String) (drow dcol : Int)
    (h1 : pyStartsWith formula "=" = true)
    (h2 : containsSub (formula.data.map toUpperModel) "INDIRECT".data = false)
    (h3 : containsSub (formula.data.map toUpperModel) "ADDRESS".data = false)
    (h4 : ∃ p ∈ findMatches formula.data, countQ (formula.data.take p.1) % 2 = 0) :
    exceptIsOk (shift_formula_refs formula drow dcol) = false := by
  obtain ⟨e, he⟩ :=
    subScan_exists_even formula.data drow dcol formula.length formula.data 0 h4
  simp [shift_formula_refs, h1, h2, h3, he, except_map_error, exceptIsOk]

theorem c1_misaligned_groups_raise_witness :
    (pyStartsWith "=B5" "=" = true
     ∧ containsSub ("=B5".data.map toUpperModel) "INDIRECT".data = false
     ∧ containsSub ("=B5".data.map toUpperModel) "ADDRESS".data = false
     ∧ ∃ p ∈ findMatches "=B5".data, countQ ("=B5".data.take p.1) % 2 = 0)
    ∧ exceptIsOk (shift_formula_refs "=B5" 1 1) = false :=
  ⟨⟨by decide, by decide, by decide, by decide⟩,
   c1_misaligned_groups_raise "=B5" 1 1 (by decide) (by decide) (by decide) (by decide)⟩

/-- C2 (code-bug evidence): the Formula Rewriter raises on the
sheet-qualified reference `=Hoja1!C5` instead of rewriting it, so no
rewritten output with a preserved qualifier is ever produced. -/
theorem c2_sheet_qualified_raises :
    exceptIsOk (shift_formula_refs "=Hoja1!C5" 1 1) = false := by
  decide

/-- C3: every match of the reference pattern whose start position is
preceded by an odd number of double quotes is left byte-identical: when all
matches of a formula lie inside double-quoted text, `shift_formula_refs`
returns the formula unchanged for every delta. -/
theorem c3_quoted_matches_untouched (formula : String) (drow dcol : Int)
    (h : ∀ p ∈ findMatches formula.data, countQ (formula.data.take p.1) % 2 = 1) :
    shift_formula_refs formula drow dcol = .ok formula := by
  by_cases hs : pyStartsWith formula "=" = false
  · simp [shift_formula_refs, hs]
  · by_cases hi : containsSub (formula.data.map toUpperModel) "INDIRECT".data = true
        ∨ containsSub (formula.data.map toUpperModel) "ADDRESS".data = true
    · simp [shift_formula_refs, hs, hi]
    · have hscan := subScan_all_odd formula.data drow dcol formula.length formula.data 0 h
      simp [shift_formula_refs, hs, hi, hscan, except_map_ok, str_mk_data]

theorem c3_quoted_matches_untouched_witness :
    (∀ p ∈ findMatches "=\"text B5 here\"".data,
        countQ ("=\"text B5 here\"".data.take p.1) % 2 = 1)
    ∧ shift_formula_refs "=\"text B5 here\"" 2 3 = .ok "=\"text B5 here\"" :=
  ⟨by decide, c3_quoted_matches_untouched "=\"text B5 here\"" 2 3 (by decide)⟩

/-- C4: a formula whose upper-cased text contains `INDIRECT` or `ADDRESS`
is returned unmodified for every delta. -/
theorem c4_indirect_address_unmodified (formula : String) (drow dcol : Int)
    (h : containsSub (formula.data.map toUpperModel) "INDIRECT".data = true
       ∨ containsSub (formula.data.map toUpperModel) "ADDRESS".data = true) :
    shift_formula_refs formula drow dcol = .ok formula := by
  by_cases hs : pyStartsWith formula "=" = false
  · simp [shift_formula_refs, hs]
  · simp [shift_formula_refs, hs, h]

theorem c4_indirect_address_unmodified_witness :
    (containsSub ("=INDIRECT(A1)".data.map toUpperModel) "INDIRECT".data = true
     ∨ containsSub ("=INDIRECT(A1)".data.map toUpperModel) "ADDRESS".data = true)
    ∧ shift_formula_refs "=INDIRECT(A1)" 5 7 = .ok "=INDIRECT(A1)" :=
  ⟨Or.inl (by decide),
   c4_indirect_address_unmodified "=INDIRECT(A1)" 5 7 (Or.inl (by decide))⟩

/-! ### `copy_range_adjusting` (app.py lines 164-211), values only

Cell values are modelled by `CellVal`; a worksheet is a total assignment of
values to `(row, column)` pairs.  Style attributes and column widths (lines
198-211) carry no claim and are not modelled.  The source and destination
sheets are distinct objects (the endpoint loads two separate workbooks), so
reads from the source are unaffected by writes to the destination. -/

/-- A cell value as openpyxl exposes it: empty, text, number, boolean or
date.  Only a string beginning with `=` is treated as a formula. -/
inductive CellVal where
  | vnone
  | vstr (s : String)
  | vnum (n : Int)
  | vbool (b : Bool)
  | vdate (y m d : Nat)
deriving DecidableEq

/-- Test of line 193: `isinstance(val, str) and val.startswith("=")`. -/
def isFormulaVal : CellVal → Bool
  | .vstr s => pyStartsWith s "="
  | _ => false

/-- Python `str.isalpha` on one character (ASCII model). -/
def pyIsAlphaChar (c : Char) : Bool := isUpperChar c || isLowerChar c

/-- Python `s.split(":")`. -/
def splitOnColon : List Char → List (List Char)
  | [] => [[]]
  | c :: t =>
    match splitOnColon t with
    | h :: rest => if c = ':' then [] :: h :: rest else (c :: h) :: rest
    | [] => [[c]]

/-- Lines 166-170 applied to one endpoint string: keep the alphabetic
characters as the column letters and the digits as the row number
(`int` raises on an empty digit string, `column_index_from_string` on an
invalid letter string). -/
def parseCellLoose (l : List Char) : Except String (Nat × Int) := do
  let row ← pyInt (some (String.mk (l.filter isDigitChar)))
  let col ← column_index_from_string (some (String.mk (l.filter pyIsAlphaChar)))
  return (col, row)

/-- Assignment `dst.value = v` on a worksheet-as-function. -/
def cellWrite (f : Int → Int → CellVal) (r c : Int) (v : CellVal) :
    Int → Int → CellVal :=
  fun rx cx => if rx = r ∧ cx = c then v else f rx cx

/-- Lines 193-196: a formula goes through `shift_formula_refs`, everything
else is copied verbatim. -/
def copyTransform (drow dcol : Int) (v : CellVal) : Except String CellVal :=
  match v with
  | .vstr s =>
    if pyStartsWith s "=" = true then (shift_formula_refs s drow dcol).map CellVal.vstr
    else .ok v
  | _ => .ok v

/-- The body of the nested loop of lines 182-196 for one offset pair,
threading the destination sheet.  openpyxl `ws.cell` raises on a row or
column below 1. -/
def copyStep (wsSrc : Int → Int → CellVal) (drow dcol ssr : Int) (ssc : Nat)
    (dsr : Int) (dsc : Nat) (f : Int → Int → CellVal) (p : Nat × Nat) :
    Except String (Int → Int → CellVal) :=
  if ssr + p.1 < 1 ∨ (ssc : Int) + p.2 < 1 ∨ dsr + p.1 < 1 ∨ (dsc : Int) + p.2 < 1 then
    .error "ValueError: cell row or column below 1"
  else do
    let v2 ← copyTransform drow dcol (wsSrc (ssr + p.1) ((ssc : Int) + p.2))
    return cellWrite f (dsr + p.1) ((dsc : Int) + p.2) v2

/-- The offset grid of `for r_off in range(num_rows): for c_off in
range(num_cols)`, in loop order. -/
def gridOffsets : Nat → Nat → List (Nat × Nat)
  | 0, _ => []
  | n + 1, m => gridOffsets n m ++ (List.range m).map (fun c => (n, c))

/-- Embedding of `copy_range_adjusting` on values.  A negative extent makes
`range` empty, exactly as in Python (`Int.toNat` of a negative is 0). -/
def copy_range_adjusting (wsSrc wsDst : Int → Int → CellVal)
    (srcRange dstStartCell : String) : Except String (Int → Int → CellVal) :=
  match splitOnColon srcRange.data with
  | [s, e] => do
    let (ssc, ssr) ← parseCellLoose s
    let (sec, ser) ← parseCellLoose e
    let (dsc, dsr) ← parseCellLoose dstStartCell.data
    List.foldlM (copyStep wsSrc (dsr - ssr) ((dsc : Int) - (ssc : Int)) ssr ssc dsr dsc)
      wsDst (gridOffsets (ser - ssr + 1).toNat ((sec : Int) - (ssc : Int) + 1).toNat)
  | _ => .error "ValueError: not enough values to unpack"

theorem mem_gridOffsets (n m : Nat) (p : Nat × Nat) :
    p ∈ gridOffsets n m ↔ p.1 < n ∧ p.2 < m := by
  obtain ⟨a, b⟩ := p
  induction n with
  | zero => simp [gridOffsets]
  | succ n ih =>
    simp only [gridOffsets, List.mem_append, ih, List.mem_map, List.mem_range]
    constructor
    · rintro (⟨h1, h2⟩ | ⟨c, hc, heq⟩)
      · exact ⟨Nat.lt_succ_of_lt h1, h2⟩
      · injection heq with ha hb
        subst ha
        subst hb
        exact ⟨Nat.lt_succ_self _, hc⟩
    · rintro ⟨h1, h2⟩
      by_cases ha : a < n
      · exact Or.inl ⟨ha, h2⟩
      · have : a = n := by omega
        subst this
        exact Or.inr ⟨b, h2, rfl⟩

theorem copyStep_ok (W : Int → Int → CellVal) (drow dcol ssr : Int) (ssc : Nat)
    (dsr : Int) (dsc : Nat) (f0 : Int → Int → CellVal) (q : Nat × Nat)
    (f1 : Int → Int → CellVal)
    (h : copyStep W drow dcol ssr ssc dsr dsc f0 q = .ok f1) :
    ∃ v2, copyTransform drow dcol (W (ssr + q.1) ((ssc : Int) + q.2)) = .ok v2
      ∧ f1 = cellWrite f0 (dsr + q.1) ((dsc : Int) + q.2) v2 := by
  unfold copyStep at h
  split at h
  · exact absurd h (by simp)
  · cases ht : copyTransform drow dcol (W (ssr + q.1) ((ssc : Int) + q.2)) with
    | error e =>
      rw [ht, except_bind_error] at h
      exact absurd h (by simp)
    | ok v2 =>
      rw [ht, except_bind_ok, except_pure] at h
      injection h with h2
      exact ⟨v2, rfl, h2.symm⟩

theorem foldlM_copyStep_notmem (W : Int → Int → CellVal) (drow dcol ssr : Int) (ssc : Nat)
    (dsr : Int) (dsc : Nat) :
    ∀ (l : List (Nat × Nat)) (f0 f : Int → Int → CellVal),
      List.foldlM (copyStep W drow dcol ssr ssc dsr dsc) f0 l = .ok f →
      ∀ r c : Int, (∀ p ∈ l, ¬(r = dsr + p.1 ∧ c = (dsc : Int) + p.2)) →
        f r c = f0 r c := by
  intro l
  induction l with
  | nil =>
    intro f0 f h r c _
    rw [List.foldlM_nil] at h
    injection h with h2
    rw [h2]
  | cons q l ih =>
    intro f0 f h r c hp
    rw [List.foldlM_cons] at h
    cases hstep : copyStep W drow dcol ssr ssc dsr dsc f0 q with
    | error e =>
      rw [hstep, except_bind_error] at h
      exact absurd h (by simp)
    | ok f1 =>
      rw [hstep, except_bind_ok] at h
      have h2 := ih f1 f h r c (fun p hpmem => hp p (List.mem_cons_of_mem q hpmem))
      rw [h2]
      obtain ⟨v2, _, hf1⟩ := copyStep_ok W drow dcol ssr ssc dsr dsc f0 q f1 hstep
      rw [hf1, cellWrite, if_neg (hp q (List.mem_cons_self q l))]

theorem foldlM_copyStep_value (W : Int → Int → CellVal) (drow dcol ssr : Int) (ssc : Nat)
    (dsr : Int) (dsc : Nat) :
    ∀ (l : List (Nat × Nat)) (f0 f : Int → Int → CellVal),
      List.foldlM (copyStep W drow dcol ssr ssc dsr dsc) f0 l = .ok f →
      ∀ p ∈ l,
        ∃ v2, copyTransform drow dcol (W (ssr + p.1) ((ssc : Int) + p.2)) = .ok v2
          ∧ f (dsr + p.1) ((dsc : Int) + p.2) = v2 := by
  intro l
  induction l with
  | nil => intro f0 f _ p hp; exact absurd hp (by simp)
  | cons q l ih =>
    intro f0 f h p hp
    rw [List.foldlM_cons] at h
    cases hstep : copyStep W drow dcol ssr ssc dsr dsc f0 q with
    | error e =>
      rw [hstep, except_bind_error] at h
      exact absurd h (by simp)
    | ok f1 =>
      rw [hstep, except_bind_ok] at h
      rcases List.mem_cons.mp hp with rfl | hmem
      · obtain ⟨v2, htr, hf1⟩ := copyStep_ok W drow dcol ssr ssc dsr dsc f0 p f1 hstep
        refine ⟨v2, htr, ?_⟩
        by_cases hq : p ∈ l
        · obtain ⟨v2x, htrx, hfx⟩ := ih f1 f h p hq
          rw [htr] at htrx
          injection htrx with hv
          rw [hfx, ← hv]
        · have hno : ∀ p2 ∈ l, ¬(dsr + p.1 = dsr + p2.1 ∧ (dsc : Int) + p.2 = (dsc : Int) + p2.2) := by
            intro p2 hp2 ⟨hr, hc⟩
            have h1 : p.1 = p2.1 := by omega
            have h2 : p.2 = p2.2 := by omega
            have : p = p2 := Prod.ext h1 h2
            rw [this] at hq
            exact hq hp2
          have := foldlM_copyStep_notmem W drow dcol ssr ssc dsr dsc l f1 f h
            (dsr + p.1) ((dsc : Int) + p.2) hno
          rw [this, hf1, cellWrite, if_pos ⟨rfl, rfl⟩]
      · exact ih f1 f h p hmem

theorem copyTransform_nonformula (drow dcol : Int) (v : CellVal)
    (h : isFormulaVal v = false) : copyTransform drow dcol v = .ok v := by
  cases v <;> simp_all [copyTransform, isFormulaVal]

/-- C7: for every source cell of the copied rectangle whose value is not a
formula — empty, non-formula text, number, boolean, date — a successful
`copy_range_adjusting` writes exactly the source value to the corresponding
destination cell. -/
theorem c7_nonformula_copied (wsSrc wsDst : Int → Int → CellVal)
    (srcRange dstStart : String) (s e : List Char)
    (hsplit : splitOnColon srcRange.data = [s, e])
    (ssc : Nat) (ssr : Int) (sec : Nat) (ser : Int) (dsc : Nat) (dsr : Int)
    (h1 : parseCellLoose s = .ok (ssc, ssr))
    (h2 : parseCellLoose e = .ok (sec, ser))
    (h3 : parseCellLoose dstStart.data = .ok (dsc, dsr))
    (f : Int → Int → CellVal)
    (hok : copy_range_adjusting wsSrc wsDst srcRange dstStart = .ok f)
    (ro co : Nat)
    (hro : (ro : Int) < ser - ssr + 1) (hco : (co : Int) < (sec : Int) - (ssc : Int) + 1)
    (hnf : isFormulaVal (wsSrc (ssr + ro) ((ssc : Int) + co)) = false) :
    f (dsr + ro) ((dsc : Int) + co) = wsSrc (ssr + ro) ((ssc : Int) + co) := by
  unfold copy_range_adjusting at hok
  rw [hsplit] at hok
  simp only [h1, h2, h3, except_bind_ok] at hok
  have hmem : ((ro, co) : Nat × Nat) ∈
      gridOffsets (ser - ssr + 1).toNat ((sec : Int) - (ssc : Int) + 1).toNat := by
    rw [mem_gridOffsets]
    exact ⟨by omega, by omega⟩
  obtain ⟨v2, htr, hval⟩ := foldlM_copyStep_value wsSrc (dsr - ssr) ((dsc : Int) - (ssc : Int))
    ssr ssc dsr dsc (gridOffsets (ser - ssr + 1).toNat ((sec : Int) - (ssc : Int) + 1).toNat)
    wsDst f hok (ro, co) hmem
  have htr2 : copyTransform (dsr - ssr) ((dsc : Int) - (ssc : Int))
      (wsSrc (ssr + ro) ((ssc : Int) + co)) = .ok v2 := htr
  have hval2 : f (dsr + ro) ((dsc : Int) + co) = v2 := hval
  rw [copyTransform_nonformula _ _ _ hnf] at htr2
  injection htr2 with hv
  rw [hval2, ← hv]

theorem c7_nonformula_copied_witness :
    (splitOnColon "A1:A1".data = ["A1".data, "A1".data]
     ∧ parseCellLoose "A1".data = .ok (1, 1)
     ∧ parseCellLoose "B2".data = .ok (2, 2)
     ∧ copy_range_adjusting
         (fun r c => if r = 1 ∧ c = 1 then CellVal.vnum 42 else CellVal.vnone)
         (fun _ _ => CellVal.vnone) "A1:A1" "B2"
         = .ok (cellWrite (fun _ _ => CellVal.vnone) 2 2 (CellVal.vnum 42))
     ∧ ((0 : Nat) : Int) < 1 - 1 + 1
     ∧ ((0 : Nat) : Int) < ((1 : Nat) : Int) - ((1 : Nat) : Int) + 1
     ∧ isFormulaVal ((fun r c => if r = 1 ∧ c = 1 then CellVal.vnum 42 else CellVal.vnone)
         ((1 : Int) + ((0 : Nat) : Int)) (((1 : Nat) : Int) + ((0 : Nat) : Int))) = false)
    ∧ cellWrite (fun _ _ => CellVal.vnone) 2 2 (CellVal.vnum 42) 2 2
        = (fun r c => if r = 1 ∧ c = 1 then CellVal.vnum 42 else CellVal.vnone) 1 1 :=
  ⟨⟨rfl, rfl, rfl, rfl, by decide, by decide, by decide⟩,
   c7_nonformula_copied
     (fun r c => if r = 1 ∧ c = 1 then CellVal.vnum 42 else CellVal.vnone)
     (fun _ _ => CellVal.vnone) "A1:A1" "B2" "A1".data "A1".data rfl
     1 1 1 1 2 2 rfl rfl rfl
     (cellWrite (fun _ _ => CellVal.vnone) 2 2 (CellVal.vnum 42)) rfl
     0 0 (by decide) (by decide) (by decide)⟩

/-! ### `normalize_text` and `find_anchor_row` (app.py lines 103-120) -/

/-- Python `str.strip` on both ends. -/
def stripChars (l : List Char) : List Char :=
  ((l.dropWhile isSpaceChar).reverse.dropWhile isSpaceChar).reverse

/-- `normalize_text`: `(s or "").strip().replace(":", "").casefold()` on an
optional text value — `None` and the empty string both normalize through
the empty string, `replace` removes every colon, `casefold` is ASCII
downcasing here. -/
def normalize_text (s : Option String) : String :=
  String.mk (((stripChars (s.getD "").data).filter (fun c => c != ':')).map toLowerModel)

/-- A destination worksheet for the Anchor Locator: its `max_row` and the
text of every cell (`none` for an empty cell; the locator compares cell
text). -/
structure Wsheet where
  maxRow : Nat
  cellVal : Nat → Nat → Option String

/-- The row numbers visited by `for r in range(1, ws.max_row + 1)`. -/
def rowsList (n : Nat) : List Nat := (List.range n).map (· + 1)

/-- The scanning loop of lines 109-112: first row whose normalized text
equals the target, else `none`. -/
def scanRows (cell : Nat → Option String) (target : String) : List Nat → Option Nat
  | [] => none
  | r :: rs =>
    if normalize_text (cell r) = target then some r else scanRows cell target rs

/-- Embedding of `find_anchor_row`: scan the requested column, fall back to
column C when the requested column (upper-cased) is not C, raise
`ValueError` when both scans fail. -/
def find_anchor_row (ws : Wsheet) (col_letter search_text : String) : Except String Nat := do
  let target := normalize_text (some search_text)
  let col_idx ← column_index_from_string (some col_letter)
  match scanRows (fun r => ws.cellVal r col_idx) target (rowsList ws.maxRow) with
  | some r => return r
  | none =>
    if pyUpperStr col_letter ≠ "C" then do
      let col_idx2 ← column_index_from_string (some "C")
      match scanRows (fun r => ws.cellVal r col_idx2) target (rowsList ws.maxRow) with
      | some r => return r
      | none => .error "ValueError: anchor text not found"
    else .error "ValueError: anchor text not found"

/-- Claim-side reading of the locator contract: `r` is in range, its
normalized text equals the normalized search text, and every earlier row
misses. -/
def FirstMatchRow (ws : Wsheet) (c : Nat) (txt : String) (r : Nat) : Prop :=
  1 ≤ r ∧ r ≤ ws.maxRow
  ∧ normalize_text (ws.cellVal r c) = normalize_text (some txt)
  ∧ ∀ r2, 1 ≤ r2 → r2 < r → normalize_text (ws.cellVal r2 c) ≠ normalize_text (some txt)

/-- Claim-side reading of a failed column scan: no row matches. -/
def NoMatchRow (ws : Wsheet) (c : Nat) (txt : String) : Prop :=
  ∀ r, 1 ≤ r → r ≤ ws.maxRow →
    normalize_text (ws.cellVal r c) ≠ normalize_text (some txt)

theorem rowsList_succ (n : Nat) : rowsList (n + 1) = rowsList n ++ [n + 1] := by
  simp [rowsList, List.range_succ]

theorem scanRows_append (cell : Nat → Option String) (target : String)
    (l1 l2 : List Nat) :
    scanRows cell target (l1 ++ l2)
      = (scanRows cell target l1).orElse (fun _ => scanRows cell target l2) := by
  induction l1 with
  | nil => rfl
  | cons r rs ih =>
    by_cases h : normalize_text (cell r) = target
    · simp [scanRows, h, Option.orElse]
    · simp [scanRows, h, Option.orElse, ih]

theorem scanRows_none_iff (cell : Nat → Option String) (target : String) :
    ∀ n, scanRows cell target (rowsList n) = none ↔
      ∀ r, 1 ≤ r → r ≤ n → normalize_text (cell r) ≠ target := by
  intro n
  induction n with
  | zero =>
    constructor
    · intro _ r h1 h2
      omega
    · intro _
      rfl
  | succ n ih =>
    rw [rowsList_succ, scanRows_append]
    cases hs : scanRows cell target (rowsList n) with
    | some r0 =>
      have hnot : ¬ (∀ r2, 1 ≤ r2 → r2 ≤ n → normalize_text (cell r2) ≠ target) := by
        intro hall
        exact absurd (ih.mpr hall) (by simp [hs])
      constructor
      · intro h
        exact absurd h (by simp [Option.orElse])
      · intro hall
        exact absurd (fun r2 ha hb => hall r2 ha (by omega)) hnot
    | none =>
      rw [show ((none : Option Nat).orElse fun _ => scanRows cell target [n + 1])
            = scanRows cell target [n + 1] from rfl]
      by_cases hh : normalize_text (cell (n + 1)) = target
      · simp only [scanRows, if_pos hh]
        constructor
        · intro h
          exact absurd h (by simp)
        · intro hall
          exact absurd hh (hall (n + 1) (by omega) (by omega))
      · simp only [scanRows, if_neg hh]
        constructor
        · intro _ r h1 h2
          by_cases hr : r ≤ n
          · exact (ih.mp hs) r h1 hr
          · have hr2 : r = n + 1 := by omega
            rw [hr2]
            exact hh
        · intro _
          trivial

theorem scanRows_some_iff (cell : Nat → Option String) (target : String) :
    ∀ n r, scanRows cell target (rowsList n) = some r ↔
      (1 ≤ r ∧ r ≤ n ∧ normalize_text (cell r) = target
       ∧ ∀ r2, 1 ≤ r2 → r2 < r → normalize_text (cell r2) ≠ target) := by
  intro n
  induction n with
  | zero =>
    intro r
    constructor
    · intro h
      exact absurd h (by simp [rowsList, scanRows])
    · rintro ⟨h1, h2, _⟩
      omega
  | succ n ih =>
    intro r
    rw [rowsList_succ, scanRows_append]
    cases hs : scanRows cell target (rowsList n) with
    | some r0 =>
      have h0 := (ih r0).mp hs
      rw [show ((some r0).orElse fun _ => scanRows cell target [n + 1]) = some r0 from rfl]
      constructor
      · intro h
        injection h with h2
        subst h2
        exact ⟨h0.1, by omega, h0.2.2.1, h0.2.2.2⟩
      · rintro ⟨h1, h2, h3, h4⟩
        have hrr : r = r0 := by
          by_contra hne
          rcases Nat.lt_or_ge r r0 with hlt | hge
          · exact h0.2.2.2 r h1 hlt h3
          · have hlt : r0 < r := by omega
            exact h4 r0 h0.1 hlt h0.2.2.1
        rw [hrr]
    | none =>
      rw [show ((none : Option Nat).orElse fun _ => scanRows cell target [n + 1])
            = scanRows cell target [n + 1] from rfl]
      have hallmiss := (scanRows_none_iff cell target n).mp hs
      by_cases hh : normalize_text (cell (n + 1)) = target
      · simp only [scanRows, if_pos hh]
        constructor
        · intro h
          injection h with h2
          subst h2
          exact ⟨by omega, by omega, hh, fun r2 ha hb => hallmiss r2 ha (by omega)⟩
        · rintro ⟨h1, h2, h3, h4⟩
          by_cases hr : r = n + 1
          · rw [hr]
          · have hr2 : r ≤ n := by omega
            exact absurd h3 (hallmiss r h1 hr2)
      · simp only [scanRows, if_neg hh]
        constructor
        · intro h
          exact absurd h (by simp [scanRows])
        · rintro ⟨h1, h2, h3, h4⟩
          by_cases hr : r = n + 1
          · subst hr
            exact absurd h3 hh
          · exact absurd h3 (hallmiss r h1 (by omega))

theorem firstMatchRow_unique (ws : Wsheet) (c : Nat) (txt : String) (a b : Nat)
    (ha : FirstMatchRow ws c txt a) (hb : FirstMatchRow ws c txt b) : a = b := by
  obtain ⟨ha1, ha2, ha3, ha4⟩ := ha
  obtain ⟨hb1, hb2, hb3, hb4⟩ := hb
  by_contra hne
  rcases Nat.lt_or_ge a b with h | h
  · exact hb4 a ha1 h ha3
  · have h2 : b < a := by omega
    exact ha4 b hb1 h2 hb3

theorem firstMatchRow_not_noMatch (ws : Wsheet) (c : Nat) (txt : String) (r : Nat)
    (hf : FirstMatchRow ws c txt r) (hn : NoMatchRow ws c txt) : False :=
  hn r hf.1 hf.2.1 hf.2.2.1

/-- C8: given a destination sheet, a valid column letter resolving to index
`ci`, and a search text, the Anchor Locator returns row `r` exactly when `r`
is the first row of column `ci` whose normalized text (trimmed,
colon-stripped, case-folded on both sides) equals the normalized search
text, or — when column `ci` has no match and the requested column is not C —
the first such row of column C (index 3); and it fails exactly when no row
matches in the requested column and none matches in the fallback column
either (the fallback being skipped when the requested column is C). -/
theorem c8_anchor_locator (ws : Wsheet) (colL txt : String) (ci : Nat) (r : Nat)
    (hci : column_index_from_string (some colL) = .ok ci) :
    (find_anchor_row ws colL txt = .ok r ↔
      (FirstMatchRow ws ci txt r
       ∨ (NoMatchRow ws ci txt ∧ pyUpperStr colL ≠ "C" ∧ FirstMatchRow ws 3 txt r)))
    ∧ (exceptIsOk (find_anchor_row ws colL txt) = false ↔
      (NoMatchRow ws ci txt ∧ (pyUpperStr colL = "C" ∨ NoMatchRow ws 3 txt))) := by
  have hC : column_index_from_string (some "C") = .ok 3 := by rfl
  cases h1 : scanRows (fun x => ws.cellVal x ci) (normalize_text (some txt)) (rowsList ws.maxRow) with
  | some r0 =>
    have hfind : find_anchor_row ws colL txt = .ok r0 := by
      simp only [find_anchor_row, hci, except_bind_ok, h1]
      rfl
    have hfm : FirstMatchRow ws ci txt r0 :=
      (scanRows_some_iff (fun x => ws.cellVal x ci) (normalize_text (some txt)) ws.maxRow r0).mp h1
    rw [hfind]
    constructor
    · constructor
      · intro h
        injection h with h2
        subst h2
        exact Or.inl hfm
      · rintro (hf | ⟨hnm, _, _⟩)
        · rw [firstMatchRow_unique ws ci txt r0 r hfm hf]
        · exact (firstMatchRow_not_noMatch ws ci txt r0 hfm hnm).elim
    · constructor
      · intro h
        exact absurd h (by simp [exceptIsOk])
      · rintro ⟨hnm, _⟩
        exact (firstMatchRow_not_noMatch ws ci txt r0 hfm hnm).elim
  | none =>
    have hnm : NoMatchRow ws ci txt :=
      (scanRows_none_iff (fun x => ws.cellVal x ci) (normalize_text (some txt)) ws.maxRow).mp h1
    by_cases hCne : pyUpperStr colL ≠ "C"
    · cases h2 : scanRows (fun x => ws.cellVal x 3) (normalize_text (some txt)) (rowsList ws.maxRow) with
      | some r0 =>
        have hfind : find_anchor_row ws colL txt = .ok r0 := by
          simp only [find_anchor_row, hci, except_bind_ok, h1]
          rw [if_pos hCne]
          simp only [hC, except_bind_ok, h2]
          rfl
        have hfm3 : FirstMatchRow ws 3 txt r0 :=
          (scanRows_some_iff (fun x => ws.cellVal x 3) (normalize_text (some txt)) ws.maxRow r0).mp h2
        rw [hfind]
        constructor
        · constructor
          · intro h
            injection h with h3
            subst h3
            exact Or.inr ⟨hnm, hCne, hfm3⟩
          · rintro (hf | ⟨_, _, hf3⟩)
            · exact (firstMatchRow_not_noMatch ws ci txt r hf hnm).elim
            · rw [firstMatchRow_unique ws 3 txt r0 r hfm3 hf3]
        · constructor
          · intro h
            exact absurd h (by simp [exceptIsOk])
          · rintro ⟨_, hC2 | hnm3⟩
            · exact absurd hC2 hCne
            · exact (firstMatchRow_not_noMatch ws 3 txt r0 hfm3 hnm3).elim
      | none =>
        have hnm3 : NoMatchRow ws 3 txt :=
          (scanRows_none_iff (fun x => ws.cellVal x 3) (normalize_text (some txt)) ws.maxRow).mp h2
        have hfind : find_anchor_row ws colL txt = .error "ValueError: anchor text not found" := by
          simp only [find_anchor_row, hci, except_bind_ok, h1]
          rw [if_pos hCne]
          simp only [hC, except_bind_ok, h2]
        rw [hfind]
        constructor
        · constructor
          · intro h
            exact absurd h (by simp)
          · rintro (hf | ⟨_, _, hf3⟩)
            · exact (firstMatchRow_not_noMatch ws ci txt r hf hnm).elim
            · exact (firstMatchRow_not_noMatch ws 3 txt r hf3 hnm3).elim
        · constructor
          · intro _
            exact ⟨hnm, Or.inr hnm3⟩
          · intro _
            rfl
    · have hCeq : pyUpperStr colL = "C" := by
        by_contra h
        exact hCne h
      have hfind : find_anchor_row ws colL txt = .error "ValueError: anchor text not found" := by
        simp only [find_anchor_row, hci, except_bind_ok, h1]
        rw [if_neg hCne]
      rw [hfind]
      constructor
      · constructor
        · intro h
          exact absurd h (by simp)
        · rintro (hf | ⟨_, hne, _⟩)
          · exact (firstMatchRow_not_noMatch ws ci txt r hf hnm).elim
          · exact absurd hCeq hne
      · constructor
        · intro _
          exact ⟨hnm, Or.inl hCeq⟩
        · intro _
          rfl

theorem c8_anchor_locator_witness :
    (column_index_from_string (some "B") = .ok 2)
    ∧ ((find_anchor_row ⟨3, fun r c => if r = 2 ∧ c = 2 then some " total " else none⟩
          "B" "Total:" = .ok 2 ↔
        (FirstMatchRow ⟨3, fun r c => if r = 2 ∧ c = 2 then some " total " else none⟩
            2 "Total:" 2
         ∨ (NoMatchRow ⟨3, fun r c => if r = 2 ∧ c = 2 then some " total " else none⟩
              2 "Total:"
            ∧ pyUpperStr "B" ≠ "C"
            ∧ FirstMatchRow ⟨3, fun r c => if r = 2 ∧ c = 2 then some " total " else none⟩
                3 "Total:" 2)))
      ∧ (exceptIsOk (find_anchor_row
            ⟨3, fun r c => if r = 2 ∧ c = 2 then some " total " else none⟩ "B" "Total:")
          = false ↔
        (NoMatchRow ⟨3, fun r c => if r = 2 ∧ c = 2 then some " total " else none⟩
            2 "Total:"
         ∧ (pyUpperStr "B" = "C"
            ∨ NoMatchRow ⟨3, fun r c => if r = 2 ∧ c = 2 then some " total " else none⟩
                3 "Total:")))) :=
  ⟨rfl, c8_anchor_locator
    ⟨3, fun r c => if r = 2 ∧ c = 2 then some " total " else none⟩ "B" "Total:" 2 2 rfl⟩

/-! ### Paste-origin computation of `/copy-range` (app.py lines 253-256) -/

/-- Embedding of lines 253-256: resolve the anchor with the caller-supplied
search column, add the row offset, and build the paste origin as the string
`f"B{paste_start_row}"` — the column letter is hard-coded `B`, whatever
column the anchor was searched in or found in. -/
def copy_range_paste_origin (ws : Wsheet) (search_col_letter search_text : String)
    (offset_rows : Int) : Except String String := do
  let anchor_row ← find_anchor_row ws search_col_letter search_text
  let paste_start_row : Int := (anchor_row : Int) + offset_rows
  return "B" ++ intRender paste_start_row

/-- C10: for every successful `/copy-range` request the paste origin is the
string `B` followed by `anchor row + offset_rows`; in particular its column
letter is always `B`, independent of the requested search column and of the
column where the anchor was actually found. -/
theorem c10_paste_origin_column_B (ws : Wsheet) (searchCol searchTxt : String)
    (off : Int) (anchor : Nat)
    (ha : find_anchor_row ws searchCol searchTxt = .ok anchor) :
    copy_range_paste_origin ws searchCol searchTxt off
      = .ok ("B" ++ intRender ((anchor : Int) + off))
    ∧ ("B" ++ intRender ((anchor : Int) + off)).data.headD ' ' = 'B' := by
  constructor
  · simp only [copy_range_paste_origin, ha, except_bind_ok, except_pure]
  · rw [str_data_append]
    rfl

theorem c10_paste_origin_column_B_witness :
    (find_anchor_row ⟨3, fun r c => if r = 2 ∧ c = 3 then some " total " else none⟩
        "D" "Total:" = .ok 2)
    ∧ (copy_range_paste_origin
        ⟨3, fun r c => if r = 2 ∧ c = 3 then some " total " else none⟩ "D" "Total:" 3
        = .ok ("B" ++ intRender (((2 : Nat) : Int) + 3))
      ∧ ("B" ++ intRender (((2 : Nat) : Int) + 3)).data.headD ' ' = 'B') :=
  ⟨rfl, c10_paste_origin_column_B
    ⟨3, fun r c => if r = 2 ∧ c = 3 then some " total " else none⟩ "D" "Total:" 3 2 rfl⟩
